import Mathlib

/-!
Verification development for ciopfs (case-insensitive on purpose filesystem).

Shallow embedding of the name-folding engine (src/ascii.c, with a
spec-modelled fragment of the Unicode strategies of src/unicode-glib.c and
src/unicode-icu.c whose folding tables live in external libraries), the
path translator, the name registry operations and the directory merge
enumerator of src/ciopfs.c, and the privilege context switch.

Names are NUL-free byte strings, modelled as lists of natural numbers
(each entry a byte value).  C string loops terminating at the NUL byte
become structural recursion over the list.
-/

namespace Ciopfs

abbrev Name := List Nat

/-- Nat value of the path separator character. -/
def slash : Nat := 47

/-- Nat value of the dot character. -/
def dot : Nat := 46

/-- The navigation entry for the directory itself. -/
def dirSelf : Name := [dot]

/-- The navigation entry for the parent directory. -/
def dirParent : Name := [dot, dot]

/-- The reserved extended-attribute key CIOPFS_ATTR_NAME, the byte string
of the thirteen characters of the string constant in src/ciopfs.c line 98
(u s e r . f i l e n a m e). -/
def CIOPFS_ATTR_NAME : Name := [117, 115, 101, 114, 46, 102, 105, 108, 101, 110, 97, 109, 101]

/-! ## ASCII case folder (src/ascii.c)

`isupper` and `tolower` are the ctype.h functions in the C locale: only
the bytes 65..90 (the letters A..Z) are upper case, and `tolower` maps
exactly those to 97..122 by adding 32. -/

/-- ctype.h isupper in the C locale: true exactly on bytes 65..90. -/
def isupper (c : Nat) : Bool := 65 ≤ c && c ≤ 90

/-- ctype.h tolower in the C locale: adds 32 to an upper-case byte,
returns every other byte unchanged. -/
def tolower (c : Nat) : Nat := if isupper c then c + 32 else c

/-- src/ascii.c str_contains_upper: walks the string, returns true as soon
as an upper-case byte is seen, false at the terminating NUL. -/
def str_contains_upper : Name → Bool
  | [] => false
  | c :: s => if isupper c then true else str_contains_upper s

/-- src/ascii.c str_fold, value semantics: the loop copies the string
byte by byte through tolower.  (Allocation failure is modelled separately
where it matters, and the undersized allocation is modelled by
str_fold_checked below.) -/
def str_fold : Name → Name
  | [] => []
  | c :: s => tolower c :: str_fold s

/-- str_fold with its allocation made explicit: the C function returns
NULL when malloc fails, otherwise the folded copy. -/
def str_fold_alloc (allocOk : Bool) (s : Name) : Option Name :=
  if allocOk then some (str_fold s) else none

/-! ## Index-guarded buffer model of src/ascii.c str_fold

The C function allocates `strlen(src)` bytes (line 14: `malloc(strlen(src))`)
and then writes the folded bytes at indices 0 .. strlen(src)-1 followed by
the terminating NUL at index strlen(src) (line 19: `*t = '\x30'` style store
of byte 0).  `buf_store` guards every store against the allocation size and
returns none when the index is out of bounds. -/

/-- A store into a heap buffer of `size` bytes, recorded as an association
of index to byte; returns none when the index is outside the allocation. -/
def buf_store (size : Nat) (buf : List (Nat × Nat)) (i : Nat) (v : Nat) :
    Option (List (Nat × Nat)) :=
  if i < size then some ((i, v) :: buf) else none

/-- The copy loop of str_fold (src/ascii.c lines 17-18): writes
`tolower src[j]` at successive indices starting from `i`. -/
def str_fold_loop (size : Nat) (buf : List (Nat × Nat)) (i : Nat) :
    Name → Option (List (Nat × Nat) × Nat)
  | [] => some (buf, i)
  | c :: rest =>
    match buf_store size buf i (tolower c) with
    | none => none
    | some b => str_fold_loop size b (i + 1) rest

/-- src/ascii.c str_fold with every buffer store index-guarded against the
size of the allocation `malloc(strlen(src))`: the copy loop followed by
the store of the terminating NUL (byte 0) one past the last copied byte. -/
def str_fold_checked (src : Name) : Option (List (Nat × Nat)) :=
  match str_fold_loop src.length [] 0 src with
  | none => none
  | some (buf, i) => buf_store src.length buf i 0

/-! ## Spec-modelled fragment of the Unicode case folder strategies

The repository's Unicode strategies (src/unicode-glib.c, src/unicode-icu.c)
delegate both the upper-case test (g_unichar_isupper / u_isupper) and the
fold (g_utf8_casefold / u_strFoldCase) to external library tables that are
not part of this repository's sources. -/

/-- Modelled from the spec: the Unicode upper-case predicate used by
str_contains_upper of src/unicode-glib.c and src/unicode-icu.c, on a
fragment of code points (the ASCII range together with U+017F LATIN SMALL
LETTER LONG S, code point 383).  In that fragment exactly the code points
65..90 (A..Z) are upper case; U+017F is a lower-case letter (category Ll),
so it is not upper case. -/
def unichar_isupper (c : Nat) : Bool := 65 ≤ c && c ≤ 90

/-- Modelled from the spec: Unicode case folding per code point (the spec's
"each code point is mapped via Unicode case-folding", special-I exclusion
applied) on the same fragment: A..Z fold by adding 32, and U+017F folds to
115 (the letter s, CaseFolding.txt entry 017F C 0073); every other code
point of the fragment is fold-fixed. -/
def unichar_fold (c : Nat) : Nat :=
  if 65 ≤ c ∧ c ≤ 90 then c + 32
  else if c = 383 then 115
  else c

/-- Modelled from the spec: str_contains_upper of the Unicode strategies,
true iff some decoded code point is upper case (src/unicode-glib.c lines
3-11 walk the code points through g_unichar_isupper). -/
def glib_str_contains_upper (s : List Nat) : Bool := s.any unichar_isupper

/-- Modelled from the spec: str_fold of the Unicode strategies, case
folding applied to every decoded code point (src/unicode-glib.c line 15
delegates to g_utf8_casefold). -/
def glib_str_fold (s : List Nat) : List Nat := s.map unichar_fold

/-! ## Path translator (src/ciopfs.c map_path) -/

/-- Error numbers used by the embedded operations. -/
def EPERM : Int := 1

def ENOMEM : Int := 12

/-- src/ciopfs.c map_path: the exact root path "/" maps to the backing
root sentinel "." (via strdup, never folded); otherwise a leading
separator is stripped and the entire remaining string is folded as one
unit by str_fold.  `allocOk` models whether the allocation inside
strdup/str_fold succeeds; on failure the C function returns NULL. -/
def map_path (allocOk : Bool) (path : Name) : Option Name :=
  match path with
  | [] => str_fold_alloc allocOk []
  | c :: rest =>
    if c = slash then
      if rest = [] then (if allocOk then some [dot] else none)
      else str_fold_alloc allocOk rest
    else str_fold_alloc allocOk (c :: rest)

/-- src/ciopfs.c ciopfs_set_orig_name_path basename computation (lines
336-340): strrchr over the separator — the suffix after the last slash,
or the whole string when it holds no slash. -/
def basename (p : Name) : Name :=
  p.foldl (fun acc c => if c = slash then [] else acc ++ [c]) []

/-! ## Privilege context switch (src/ciopfs.c lines 236-296) -/

/-- The caller identity supplied by the request context. -/
structure Cred where
  uid : Nat
  gid : Nat
deriving DecidableEq

/-- OS-level identity of the daemon process: real and effective user and
group ids, and the supplementary group list. -/
structure IdState where
  ruid : Nat
  rgid : Nat
  euid : Nat
  egid : Nat
  sgroups : List Nat
deriving DecidableEq

/-- The identity observed during a phase of an operation: the effective
user and group id pair. -/
def obs (s : IdState) : Nat × Nat := (s.euid, s.egid)

/-- src/ciopfs.c enter_user_context_effective: a no-op unless single
threaded mode is active and the daemon's real uid is 0 (root); otherwise
installs the caller's supplementary groups when the process-status lookup
yields any, then sets the effective gid and uid to the caller's. -/
def enter_user_context_effective (single : Bool) (c : Cred) (groups : List Nat)
    (s : IdState) : IdState :=
  if !single || s.ruid ≠ 0 then s
  else
    let s1 := if groups ≠ [] then { s with sgroups := groups } else s
    { s1 with egid := c.gid, euid := c.uid }

/-- src/ciopfs.c leave_user_context_effective: a no-op unless single
threaded mode is active and the daemon's real uid is 0; otherwise restores
the effective uid to the real uid and the effective gid to the real gid. -/
def leave_user_context_effective (single : Bool) (s : IdState) : IdState :=
  if !single || s.ruid ≠ 0 then s
  else { s with euid := s.ruid, egid := s.rgid }

/-! ## Backing store and the per-operation effect record -/

/-- The extended-attribute store of the backing filesystem: path and key
to optional value. -/
def Xattrs := Name → Name → Option Name

/-- Pointwise update of the attribute store. -/
def xset (st : Xattrs) (p k v : Name) : Xattrs :=
  fun q k2 => if q = p ∧ k2 = k then some v else st q k2

/-- Pointwise removal from the attribute store. -/
def xremove (st : Xattrs) (p k : Name) : Xattrs :=
  fun q k2 => if q = p ∧ k2 = k then none else st q k2

/-- A backing-store call issued by an operation, with the backing path it
received. -/
inductive BackingOp where
  | lstat (p : Name)
  | openc (p : Name)
  | mkfifo (p : Name)
  | mknod (p : Name)
  | mkdir (p : Name)
  | symlink (target p : Name)
  | rename (f t : Name)
  | link (f t : Name)
  | lsetxattr (p k : Name)
  | lremovexattr (p k : Name)
deriving DecidableEq

/-- Effects of one embedded filesystem operation: the returned code, the
attribute store afterwards, the set_orig_name invocations (target backing
path, stored value), the backing calls issued, and the identity observed
at each phase (operation start, during the bracketed backing call,
operation return). -/
structure FsOut where
  ret : Int
  st : Xattrs
  sets : List (Name × Name)
  backing : List BackingOp
  idTrace : List (Nat × Nat)

/-- The early return taken by every path-based operation when map_path
returns NULL: -ENOMEM, no backing call, no identity switch. -/
def enomem_out (s : IdState) (st : Xattrs) : FsOut :=
  { ret := -ENOMEM, st := st, sets := [], backing := [], idTrace := [obs s] }

/-! ## Path-based operations of src/ciopfs.c -/

/-- src/ciopfs.c ciopfs_getattr: translate the path (-ENOMEM on NULL),
enter the caller context, lstat, record -errno on failure, leave the
caller context. -/
def ciopfs_getattr (single : Bool) (c : Cred) (groups : List Nat)
    (allocOk statOk : Bool) (errno : Nat) (s : IdState) (st : Xattrs)
    (path : Name) : FsOut :=
  match map_path allocOk path with
  | none => enomem_out s st
  | some p =>
    let s1 := enter_user_context_effective single c groups s
    let r : Int := if statOk then 0 else -(errno : Int)
    let s2 := leave_user_context_effective single s1
    { ret := r, st := st, sets := [], backing := [.lstat p],
      idTrace := [obs s, obs s1, obs s2] }

/-- The kind of node requested from ciopfs_mknod. -/
inductive FileKind where
  | reg
  | fifo
  | dev
deriving DecidableEq

/-- src/ciopfs.c ciopfs_mknod: for a regular file, open with
O_CREAT|O_EXCL and, on success, ciopfs_set_orig_name_fd with the basename
of the virtual path before closing; for a fifo, mkfifo; otherwise mknod —
in the latter two cases no original name is recorded.  The primary result
is unchanged by the outcome of the attribute store. -/
def ciopfs_mknod (single : Bool) (c : Cred) (groups : List Nat)
    (allocOk primaryOk xattrOk : Bool) (errno : Nat) (s : IdState)
    (st : Xattrs) (path : Name) (kind : FileKind) : FsOut :=
  match map_path allocOk path with
  | none => enomem_out s st
  | some p =>
    let s1 := enter_user_context_effective single c groups s
    let s2 := leave_user_context_effective single s1
    match kind with
    | .reg =>
      if primaryOk then
        { ret := 0,
          st := if xattrOk then xset st p CIOPFS_ATTR_NAME (basename path) else st,
          sets := [(p, basename path)], backing := [.openc p],
          idTrace := [obs s, obs s1, obs s2] }
      else
        { ret := -(errno : Int), st := st, sets := [], backing := [.openc p],
          idTrace := [obs s, obs s1, obs s2] }
    | .fifo =>
      { ret := if primaryOk then 0 else -(errno : Int), st := st, sets := [],
        backing := [.mkfifo p], idTrace := [obs s, obs s1, obs s2] }
    | .dev =>
      { ret := if primaryOk then 0 else -(errno : Int), st := st, sets := [],
        backing := [.mknod p], idTrace := [obs s, obs s1, obs s2] }

/-- src/ciopfs.c ciopfs_mkdir: mkdir on the translated path and, when it
succeeded, ciopfs_set_orig_name_path storing the basename of the virtual
path; the returned code was fixed before the attribute store is touched. -/
def ciopfs_mkdir (single : Bool) (c : Cred) (groups : List Nat)
    (allocOk primaryOk xattrOk : Bool) (errno : Nat) (s : IdState)
    (st : Xattrs) (path : Name) : FsOut :=
  match map_path allocOk path with
  | none => enomem_out s st
  | some p =>
    let s1 := enter_user_context_effective single c groups s
    let s2 := leave_user_context_effective single s1
    if primaryOk then
      { ret := 0,
        st := if xattrOk then xset st p CIOPFS_ATTR_NAME (basename path) else st,
        sets := [(p, basename path)], backing := [.mkdir p],
        idTrace := [obs s, obs s1, obs s2] }
    else
      { ret := -(errno : Int), st := st, sets := [], backing := [.mkdir p],
        idTrace := [obs s, obs s1, obs s2] }

/-- src/ciopfs.c ciopfs_symlink: only the destination is translated (the
link target string is passed to the backing store untouched); on success
the basename of the virtual destination is stored as original name. -/
def ciopfs_symlink (single : Bool) (c : Cred) (groups : List Nat)
    (allocOk primaryOk xattrOk : Bool) (errno : Nat) (s : IdState)
    (st : Xattrs) (fromName toPath : Name) : FsOut :=
  match map_path allocOk toPath with
  | none => enomem_out s st
  | some t =>
    let s1 := enter_user_context_effective single c groups s
    let s2 := leave_user_context_effective single s1
    if primaryOk then
      { ret := 0,
        st := if xattrOk then xset st t CIOPFS_ATTR_NAME (basename toPath) else st,
        sets := [(t, basename toPath)], backing := [.symlink fromName t],
        idTrace := [obs s, obs s1, obs s2] }
    else
      { ret := -(errno : Int), st := st, sets := [], backing := [.symlink fromName t],
        idTrace := [obs s, obs s1, obs s2] }

/-- src/ciopfs.c ciopfs_rename: both paths are translated (-ENOMEM when
either translation fails); on success the basename of the virtual
destination is stored as original name at the destination. -/
def ciopfs_rename (single : Bool) (c : Cred) (groups : List Nat)
    (allocOk primaryOk xattrOk : Bool) (errno : Nat) (s : IdState)
    (st : Xattrs) (fromPath toPath : Name) : FsOut :=
  match map_path allocOk fromPath, map_path allocOk toPath with
  | none, _ => enomem_out s st
  | some _, none => enomem_out s st
  | some f, some t =>
    let s1 := enter_user_context_effective single c groups s
    let s2 := leave_user_context_effective single s1
    if primaryOk then
      { ret := 0,
        st := if xattrOk then xset st t CIOPFS_ATTR_NAME (basename toPath) else st,
        sets := [(t, basename toPath)], backing := [.rename f t],
        idTrace := [obs s, obs s1, obs s2] }
    else
      { ret := -(errno : Int), st := st, sets := [], backing := [.rename f t],
        idTrace := [obs s, obs s1, obs s2] }

/-- src/ciopfs.c ciopfs_link: as ciopfs_rename, with link as the backing
call. -/
def ciopfs_link (single : Bool) (c : Cred) (groups : List Nat)
    (allocOk primaryOk xattrOk : Bool) (errno : Nat) (s : IdState)
    (st : Xattrs) (fromPath toPath : Name) : FsOut :=
  match map_path allocOk fromPath, map_path allocOk toPath with
  | none, _ => enomem_out s st
  | some _, none => enomem_out s st
  | some f, some t =>
    let s1 := enter_user_context_effective single c groups s
    let s2 := leave_user_context_effective single s1
    if primaryOk then
      { ret := 0,
        st := if xattrOk then xset st t CIOPFS_ATTR_NAME (basename toPath) else st,
        sets := [(t, basename toPath)], backing := [.link f t],
        idTrace := [obs s, obs s1, obs s2] }
    else
      { ret := -(errno : Int), st := st, sets := [], backing := [.link f t],
        idTrace := [obs s, obs s1, obs s2] }

/-- src/ciopfs.c ciopfs_setxattr: a request naming the reserved key is
rejected with -EPERM before any path translation or backing call; any
other key is forwarded to lsetxattr on the translated path. -/
def ciopfs_setxattr (single : Bool) (c : Cred) (groups : List Nat)
    (allocOk backingOk : Bool) (errno : Nat) (s : IdState) (st : Xattrs)
    (path nm value : Name) : FsOut :=
  if nm = CIOPFS_ATTR_NAME then
    { ret := -EPERM, st := st, sets := [], backing := [], idTrace := [obs s] }
  else
    match map_path allocOk path with
    | none => enomem_out s st
    | some p =>
      let s1 := enter_user_context_effective single c groups s
      let s2 := leave_user_context_effective single s1
      if backingOk then
        { ret := 0, st := xset st p nm value, sets := [],
          backing := [.lsetxattr p nm], idTrace := [obs s, obs s1, obs s2] }
      else
        { ret := -(errno : Int), st := st, sets := [],
          backing := [.lsetxattr p nm], idTrace := [obs s, obs s1, obs s2] }

/-- src/ciopfs.c ciopfs_removexattr: a request naming the reserved key is
rejected with -EPERM before any path translation or backing call; any
other key is forwarded to lremovexattr on the translated path. -/
def ciopfs_removexattr (single : Bool) (c : Cred) (groups : List Nat)
    (allocOk backingOk : Bool) (errno : Nat) (s : IdState) (st : Xattrs)
    (path nm : Name) : FsOut :=
  if nm = CIOPFS_ATTR_NAME then
    { ret := -EPERM, st := st, sets := [], backing := [], idTrace := [obs s] }
  else
    match map_path allocOk path with
    | none => enomem_out s st
    | some p =>
      let s1 := enter_user_context_effective single c groups s
      let s2 := leave_user_context_effective single s1
      if backingOk then
        { ret := 0, st := xremove st p nm, sets := [],
          backing := [.lremovexattr p nm], idTrace := [obs s, obs s1, obs s2] }
      else
        { ret := -(errno : Int), st := st, sets := [],
          backing := [.lremovexattr p nm], idTrace := [obs s, obs s1, obs s2] }

/-! ## Directory merge enumerator (src/ciopfs.c ciopfs_readdir)

The enumeration loop of lines 445-485, with the filler accepting every
entry.  The loop is parametric in the case folder exactly as the C file is
(selected by inclusion of one strategy translation unit): `foldO` is
str_fold lifted to its NULL-able return, `upperP` is str_contains_upper.
The PATH_MAX and EBADF guards and the seekdir cursor restore of lines
433-443 precede the loop and are orthogonal to the per-entry logic. -/

/-- Result of one enumeration: the emitted display names, the paths whose
original-name attribute was removed as stale, and the paths looked up in
the name registry. -/
structure RdOut where
  names : List Name
  removes : List Name
  lookups : List Name
deriving DecidableEq

/-- One iteration of the ciopfs_readdir loop for raw entry `e` of the
directory with backing path `p`, under attribute store lookup `attr`:
none when the entry is skipped, otherwise the emitted name together with
the attribute removals and registry lookups the iteration performed. -/
def readdir_step (foldO : Name → Option Name) (upperP : Name → Bool)
    (p : Name) (attr : Name → Option Name) (e : Name) :
    Option (Name × List Name × List Name) :=
  if upperP e then none
  else if e = dirSelf ∨ e = dirParent then some (e, [], [])
  else
    let full := p ++ slash :: e
    match attr full with
    | none => some (e, [], [full])
    | some v =>
      if v = [] then some (e, [], [full])
      else
        match foldO v with
        | none => some (e, [full], [full])
        | some lw => if lw = e then some (v, [], [full]) else some (e, [full], [full])

/-- The ciopfs_readdir loop over the raw backing entries, with the filler
accepting every emitted entry. -/
def ciopfs_readdir (foldO : Name → Option Name) (upperP : Name → Bool)
    (p : Name) (attr : Name → Option Name) : List Name → RdOut
  | [] => ⟨[], [], []⟩
  | e :: rest =>
    let o := ciopfs_readdir foldO upperP p attr rest
    match readdir_step foldO upperP p attr e with
    | none => o
    | some (d, r, l) => ⟨d :: o.names, r ++ o.removes, l ++ o.lookups⟩

/-- The ASCII strategy's str_fold as the enumeration's fold parameter,
with allocation assumed to succeed. -/
def asciiFoldO : Name → Option Name := fun s => some (str_fold s)

/-! ## Helper lemmas on the ASCII case folder -/

theorem isupper_eq_true_iff (c : Nat) : isupper c = true ↔ 65 ≤ c ∧ c ≤ 90 := by
  simp [isupper]

theorem isupper_eq_false_iff (c : Nat) : isupper c = false ↔ ¬(65 ≤ c ∧ c ≤ 90) := by
  rw [← Bool.not_eq_true, not_iff_not, isupper_eq_true_iff]

theorem tolower_eq_self (c : Nat) : tolower c = c ↔ isupper c = false := by
  cases h : isupper c
  · simp [tolower, h]
  · simp [tolower, h]

theorem isupper_tolower (c : Nat) : isupper (tolower c) = false := by
  by_cases h : 65 ≤ c ∧ c ≤ 90
  · have h1 : isupper c = true := (isupper_eq_true_iff c).mpr h
    have h2 : tolower c = c + 32 := by simp [tolower, h1]
    rw [h2, isupper_eq_false_iff]
    omega
  · have h1 : isupper c = false := (isupper_eq_false_iff c).mpr h
    have h2 : tolower c = c := (tolower_eq_self c).mpr h1
    rw [h2, isupper_eq_false_iff]
    exact h

theorem tolower_idem (c : Nat) : tolower (tolower c) = tolower c :=
  (tolower_eq_self (tolower c)).mpr (isupper_tolower c)

theorem contains_upper_iff_fold_ne (s : Name) :
    str_contains_upper s = true ↔ str_fold s ≠ s := by
  induction s with
  | nil => simp [str_contains_upper, str_fold]
  | cons c t ih =>
    simp only [str_contains_upper, str_fold]
    cases h : isupper c with
    | false =>
      have hc : tolower c = c := (tolower_eq_self c).mpr h
      simp [hc, ih]
    | true =>
      have hc : tolower c ≠ c := by
        intro hcc
        rw [(tolower_eq_self c).mp hcc] at h
        cases h
      simp [hc]

theorem str_fold_idem (s : Name) : str_fold (str_fold s) = str_fold s := by
  induction s with
  | nil => rfl
  | cons c t ih => simp [str_fold, tolower_idem, ih]

theorem str_fold_no_upper (s : Name) : str_contains_upper (str_fold s) = false := by
  induction s with
  | nil => rfl
  | cons c t ih => simp [str_fold, str_contains_upper, isupper_tolower, ih]

/-! ## Helper lemmas on the modelled Unicode fragment -/

theorem unichar_fold_idem (c : Nat) : unichar_fold (unichar_fold c) = unichar_fold c := by
  unfold unichar_fold
  by_cases h1 : 65 ≤ c ∧ c ≤ 90
  · rw [if_pos h1, if_neg (by omega : ¬(65 ≤ c + 32 ∧ c + 32 ≤ 90)),
      if_neg (by omega : ¬(c + 32 = 383))]
  · rw [if_neg h1]
    by_cases h2 : c = 383
    · rw [if_pos h2]
      decide
    · rw [if_neg h2, if_neg h1, if_neg h2]

theorem unichar_isupper_fold (c : Nat) : unichar_isupper (unichar_fold c) = false := by
  have key : ∀ d : Nat, ¬(65 ≤ d ∧ d ≤ 90) → unichar_isupper d = false := by
    intro d hd
    rw [← Bool.not_eq_true]
    simp only [unichar_isupper, Bool.and_eq_true, decide_eq_true_eq]
    omega
  unfold unichar_fold
  by_cases h1 : 65 ≤ c ∧ c ≤ 90
  · rw [if_pos h1]
    exact key _ (by omega)
  · rw [if_neg h1]
    by_cases h2 : c = 383
    · rw [if_pos h2]
      decide
    · rw [if_neg h2]
      exact key _ h1

theorem glib_fold_idem (s : List Nat) :
    glib_str_fold (glib_str_fold s) = glib_str_fold s := by
  induction s with
  | nil => rfl
  | cons c t ih =>
    simp only [glib_str_fold, List.map_cons] at ih ⊢
    rw [unichar_fold_idem, ih]

theorem glib_fold_no_upper (s : List Nat) :
    glib_str_contains_upper (glib_str_fold s) = false := by
  induction s with
  | nil => rfl
  | cons c t ih =>
    simp only [glib_str_fold, glib_str_contains_upper, List.map_cons, List.any_cons] at ih ⊢
    rw [unichar_isupper_fold, ih]
    rfl

/-! ## Claims about the case folder -/

/-- Claim C6, counterexample: for the Unicode strategies the claimed
equivalence fails at the one-code-point name U+017F (long s, 383):
needs_fold reports false (the code point is not upper case) while the
fold changes the name to the letter s (115). -/
theorem c6_counterexample :
    glib_str_contains_upper [383] = false ∧ glib_str_fold [383] ≠ [383] := by
  decide

/-- Claim C6 (amended to the ASCII strategy): needs_fold is consistent
with fold — str_contains_upper returns true exactly when str_fold changes
the name. -/
theorem c6_needs_fold_iff (s : Name) :
    str_contains_upper s = true ↔ str_fold s ≠ s :=
  contains_upper_iff_fold_ne s

/-- Witness for c6_needs_fold_iff at the concrete name "Ab". -/
theorem c6_witness : str_fold [65, 98] ≠ [65, 98] :=
  (c6_needs_fold_iff [65, 98]).mp (by decide)

/-- Claim C7: folding is idempotent and an already-folded name never
needs folding, for the ASCII strategy and for the modelled Unicode
strategy alike. -/
theorem c7_fold_idempotent :
    (∀ s : Name, str_fold (str_fold s) = str_fold s) ∧
    (∀ s : Name, str_contains_upper (str_fold s) = false) ∧
    (∀ u : List Nat, glib_str_fold (glib_str_fold u) = glib_str_fold u) ∧
    (∀ u : List Nat, glib_str_contains_upper (glib_str_fold u) = false) :=
  ⟨str_fold_idem, str_fold_no_upper, glib_fold_idem, glib_fold_no_upper⟩

/-- Claim C8: the ASCII fold preserves length and byte order, maps every
byte in 65..90 (A..Z) to the byte 32 higher (the matching letter in
a..z), and passes every other byte through unchanged. -/
theorem c8_ascii_fold_pointwise :
    (∀ s : Name, (str_fold s).length = s.length) ∧
    (∀ (s : Name) (i : Nat),
      (str_fold s).getD i 0 =
        if 65 ≤ s.getD i 0 ∧ s.getD i 0 ≤ 90 then s.getD i 0 + 32 else s.getD i 0) := by
  constructor
  · intro s
    induction s with
    | nil => rfl
    | cons c t ih => simp [str_fold, ih]
  · intro s
    induction s with
    | nil =>
      intro i
      simp [str_fold]
    | cons c t ih =>
      intro i
      cases i with
      | zero => simp [str_fold, tolower, isupper]
      | succ j => simpa [str_fold] using ih j

/-- Claim C10: str_fold of src/ascii.c allocates strlen(src) bytes and
then stores strlen(src)+1 bytes; with every store guarded by the
allocation size, the final store of the terminating NUL at index
strlen(src) is out of bounds on every input, so the checked run always
fails. -/
theorem c10_fold_oob (src : Name) : str_fold_checked src = none := by
  have complete : ∀ (t : Name) (size i : Nat) (buf : List (Nat × Nat)),
      i + t.length ≤ size →
      ∃ buf2, str_fold_loop size buf i t = some (buf2, i + t.length) := by
    intro t
    induction t with
    | nil =>
      intro size i buf h
      exact ⟨buf, by simp [str_fold_loop]⟩
    | cons c u ih =>
      intro size i buf h
      have hi : i < size := by
        simp only [List.length_cons] at h
        omega
      have h2 : (i + 1) + u.length ≤ size := by
        simp only [List.length_cons] at h
        omega
      obtain ⟨b2, hb⟩ := ih size (i + 1) ((i, tolower c) :: buf) h2
      refine ⟨b2, ?_⟩
      unfold str_fold_loop buf_store
      rw [if_pos hi]
      show str_fold_loop size ((i, tolower c) :: buf) (i + 1) u = _
      rw [hb]
      have : i + 1 + u.length = i + (c :: u).length := by
        simp only [List.length_cons]
        omega
      rw [this]
  obtain ⟨b2, hb⟩ := complete src src.length 0 [] (by omega)
  unfold str_fold_checked
  rw [hb]
  show buf_store src.length b2 (0 + src.length) 0 = none
  unfold buf_store
  rw [if_neg (by omega : ¬(0 + src.length < src.length))]

/-! ## Helper lemmas on the path translator -/

theorem map_path_false (path : Name) : map_path false path = none := by
  cases path with
  | nil => rfl
  | cons c rest =>
    by_cases h : c = slash
    · by_cases h2 : rest = []
      · simp [map_path, str_fold_alloc, h, h2]
      · simp [map_path, str_fold_alloc, h, h2]
    · simp [map_path, str_fold_alloc, h]

theorem map_path_true_ne_none (path : Name) : map_path true path ≠ none := by
  cases path with
  | nil => simp [map_path, str_fold_alloc]
  | cons c rest =>
    by_cases h : c = slash
    · by_cases h2 : rest = []
      · simp [map_path, str_fold_alloc, h, h2]
      · simp [map_path, str_fold_alloc, h, h2]
    · simp [map_path, str_fold_alloc, h]

/-! ## Helper lemma on the privilege context switch -/

theorem enter_leave_obs (c : Cred) (groups : List Nat) (s : IdState)
    (hs : s.ruid = 0) :
    obs (enter_user_context_effective true c groups s) = (c.uid, c.gid) ∧
    obs (leave_user_context_effective true
      (enter_user_context_effective true c groups s)) = (s.ruid, s.rgid) := by
  unfold enter_user_context_effective leave_user_context_effective obs
  by_cases hg : groups = []
  · simp [hs, hg]
  · simp [hs, hg]

/-! ## Claims about the path translator and the operations -/

/-- Claim C5: map_path sends the exact root path to the backing-root
sentinel "." without folding, sends every other absolute path to the fold
of the whole remainder after the leading separator, fails with NULL when
allocation fails, and then the enclosing operation (ciopfs_getattr here)
returns -ENOMEM without issuing any backing call; when allocation
succeeds the backing call receives exactly the folded path. -/
theorem c5_map_path_translation :
    (map_path true [slash] = some [dot]) ∧
    (map_path false [slash] = none) ∧
    (∀ (c0 : Nat) (r0 : Name),
      map_path true (slash :: c0 :: r0) = some (str_fold (c0 :: r0))) ∧
    (∀ (c0 : Nat) (r0 : Name), map_path false (slash :: c0 :: r0) = none) ∧
    (∀ (single : Bool) (c : Cred) (groups : List Nat) (statOk : Bool) (errno : Nat)
      (s : IdState) (st : Xattrs) (path : Name),
      (ciopfs_getattr single c groups false statOk errno s st path).ret = -ENOMEM ∧
      (ciopfs_getattr single c groups false statOk errno s st path).backing = []) ∧
    (∀ (single : Bool) (c : Cred) (groups : List Nat) (statOk : Bool) (errno : Nat)
      (s : IdState) (st : Xattrs) (c0 : Nat) (r0 : Name),
      (ciopfs_getattr single c groups true statOk errno s st
        (slash :: c0 :: r0)).backing = [BackingOp.lstat (str_fold (c0 :: r0))]) := by
  refine ⟨rfl, rfl, ?_, ?_, ?_, ?_⟩
  · intro c0 r0
    simp [map_path, str_fold_alloc]
  · intro c0 r0
    exact map_path_false (slash :: c0 :: r0)
  · intro single c groups statOk errno s st path
    simp [ciopfs_getattr, map_path_false path, enomem_out]
  · intro single c groups statOk errno s st c0 r0
    have hm : map_path true (slash :: c0 :: r0) = some (str_fold (c0 :: r0)) := by
      simp [map_path, str_fold_alloc]
    simp [ciopfs_getattr, hm]

/-- Claim C4: a setxattr or removexattr request naming the reserved key
user.filename is rejected with -EPERM before any path translation or
backing call: the attribute store is returned untouched and no backing
operation is recorded, for every path, value and configuration. -/
theorem c4_reserved_key_eperm (single : Bool) (c : Cred) (groups : List Nat)
    (allocOk backingOk : Bool) (errno : Nat) (s : IdState) (st : Xattrs)
    (path value : Name) :
    ciopfs_setxattr single c groups allocOk backingOk errno s st path
        CIOPFS_ATTR_NAME value =
      { ret := -EPERM, st := st, sets := [], backing := [], idTrace := [obs s] } ∧
    ciopfs_removexattr single c groups allocOk backingOk errno s st path
        CIOPFS_ATTR_NAME =
      { ret := -EPERM, st := st, sets := [], backing := [], idTrace := [obs s] } :=
  ⟨rfl, rfl⟩

/-- Claim C3, counterexample: ciopfs_mknod of a fifo at the virtual path
"/Fifo" (bytes 47 70 105 102 111) succeeds with result 0, yet no
set_orig_name invocation occurs — the original mixed-case name of a fifo
(or device) node is never recorded, against the claim's "every successful
create-like operation". -/
theorem c3_counterexample :
    (ciopfs_mknod false ⟨0, 0⟩ [] true true true 13 ⟨0, 0, 0, 0, []⟩
      (fun _ _ => none) [47, 70, 105, 102, 111] FileKind.fifo).ret = 0 ∧
    (ciopfs_mknod false ⟨0, 0⟩ [] true true true 13 ⟨0, 0, 0, 0, []⟩
      (fun _ _ => none) [47, 70, 105, 102, 111] FileKind.fifo).sets = [] :=
  ⟨rfl, rfl⟩

/-- Claim C3 (amended): for every successful regular-file creation
(mknod), directory creation, symlink creation, and destination of rename
and of link, set_orig_name is invoked afterward with the basename of the
caller-supplied virtual name as the attribute value, and the operation
returns 0 whether or not the attribute store succeeds (xattrOk is
arbitrary and absent from the result); mknod of a fifo or device node
succeeds without recording any original name. -/
theorem c3_set_orig_after_create (single : Bool) (c : Cred) (groups : List Nat)
    (xattrOk : Bool) (errno : Nat) (s : IdState) (st : Xattrs)
    (c0 : Nat) (r0 fromPath : Name) :
    ((ciopfs_mknod single c groups true true xattrOk errno s st
        (slash :: c0 :: r0) FileKind.reg).ret = 0 ∧
     (ciopfs_mknod single c groups true true xattrOk errno s st
        (slash :: c0 :: r0) FileKind.reg).sets =
       [(str_fold (c0 :: r0), basename (slash :: c0 :: r0))]) ∧
    ((ciopfs_mkdir single c groups true true xattrOk errno s st
        (slash :: c0 :: r0)).ret = 0 ∧
     (ciopfs_mkdir single c groups true true xattrOk errno s st
        (slash :: c0 :: r0)).sets =
       [(str_fold (c0 :: r0), basename (slash :: c0 :: r0))]) ∧
    ((ciopfs_symlink single c groups true true xattrOk errno s st fromPath
        (slash :: c0 :: r0)).ret = 0 ∧
     (ciopfs_symlink single c groups true true xattrOk errno s st fromPath
        (slash :: c0 :: r0)).sets =
       [(str_fold (c0 :: r0), basename (slash :: c0 :: r0))]) ∧
    ((ciopfs_rename single c groups true true xattrOk errno s st fromPath
        (slash :: c0 :: r0)).ret = 0 ∧
     (ciopfs_rename single c groups true true xattrOk errno s st fromPath
        (slash :: c0 :: r0)).sets =
       [(str_fold (c0 :: r0), basename (slash :: c0 :: r0))]) ∧
    ((ciopfs_link single c groups true true xattrOk errno s st fromPath
        (slash :: c0 :: r0)).ret = 0 ∧
     (ciopfs_link single c groups true true xattrOk errno s st fromPath
        (slash :: c0 :: r0)).sets =
       [(str_fold (c0 :: r0), basename (slash :: c0 :: r0))]) ∧
    ((ciopfs_mknod single c groups true true xattrOk errno s st
        (slash :: c0 :: r0) FileKind.fifo).ret = 0 ∧
     (ciopfs_mknod single c groups true true xattrOk errno s st
        (slash :: c0 :: r0) FileKind.fifo).sets = [] ∧
     (ciopfs_mknod single c groups true true xattrOk errno s st
        (slash :: c0 :: r0) FileKind.dev).ret = 0 ∧
     (ciopfs_mknod single c groups true true xattrOk errno s st
        (slash :: c0 :: r0) FileKind.dev).sets = []) := by
  have hm : map_path true (slash :: c0 :: r0) = some (str_fold (c0 :: r0)) := by
    simp [map_path, str_fold_alloc]
  rcases hf : map_path true fromPath with _ | f
  · exact absurd hf (map_path_true_ne_none fromPath)
  · refine ⟨?_, ?_, ?_, ?_, ?_, ?_⟩
    · simp [ciopfs_mknod, hm]
    · simp [ciopfs_mkdir, hm]
    · simp [ciopfs_symlink, hm]
    · simp [ciopfs_rename, hf, hm]
    · simp [ciopfs_link, hf, hm]
    · simp [ciopfs_mknod, hm]

/-- Claim C9: under the single-flow and privileged configuration (single
threaded, real uid 0, effective ids still the daemon's), every modelled
path-based operation observes exactly the identity sequence daemon,
caller, daemon — for both outcomes of the bracketed backing call. -/
theorem c9_identity_bracket (c : Cred) (groups : List Nat)
    (statOk primaryOk xattrOk : Bool) (errno : Nat) (s : IdState) (st : Xattrs)
    (path fromPath toPath : Name)
    (hruid : s.ruid = 0) (heuid : s.euid = 0) (hegid : s.egid = s.rgid) :
    (ciopfs_getattr true c groups true statOk errno s st path).idTrace =
      [obs s, (c.uid, c.gid), obs s] ∧
    (ciopfs_mkdir true c groups true primaryOk xattrOk errno s st path).idTrace =
      [obs s, (c.uid, c.gid), obs s] ∧
    (ciopfs_rename true c groups true primaryOk xattrOk errno s st
      fromPath toPath).idTrace = [obs s, (c.uid, c.gid), obs s] := by
  obtain ⟨h1, h2⟩ := enter_leave_obs c groups s hruid
  have hobs : (s.ruid, s.rgid) = obs s := by
    simp [obs, hruid, heuid, hegid]
  rcases hp : map_path true path with _ | p
  · exact absurd hp (map_path_true_ne_none path)
  rcases hfp : map_path true fromPath with _ | f
  · exact absurd hfp (map_path_true_ne_none fromPath)
  rcases htp : map_path true toPath with _ | t
  · exact absurd htp (map_path_true_ne_none toPath)
  refine ⟨?_, ?_, ?_⟩
  · simp [ciopfs_getattr, hp, h1, h2, hobs]
  · cases primaryOk <;> simp [ciopfs_mkdir, hp, h1, h2, hobs]
  · cases primaryOk <;> simp [ciopfs_rename, hfp, htp, h1, h2, hobs]

/-- Witness for c9_identity_bracket: caller uid 7, gid 8, daemon root,
with the bracketed backing call failing (statOk and primaryOk false). -/
theorem c9_witness :
    (ciopfs_getattr true ⟨7, 8⟩ [] true false 13 ⟨0, 0, 0, 0, []⟩
      (fun _ _ => none) [47, 65]).idTrace = [(0, 0), (7, 8), (0, 0)] ∧
    (ciopfs_mkdir true ⟨7, 8⟩ [] true false false 13 ⟨0, 0, 0, 0, []⟩
      (fun _ _ => none) [47, 65]).idTrace = [(0, 0), (7, 8), (0, 0)] ∧
    (ciopfs_rename true ⟨7, 8⟩ [] true false false 13 ⟨0, 0, 0, 0, []⟩
      (fun _ _ => none) [47, 65] [47, 66]).idTrace = [(0, 0), (7, 8), (0, 0)] := by
  have h := c9_identity_bracket ⟨7, 8⟩ [] false false false 13 ⟨0, 0, 0, 0, []⟩
    (fun _ _ => none) [47, 65] [47, 65] [47, 66] rfl rfl rfl
  exact h

/-! ## Claims about the directory merge enumerator -/

/-- Claim C1: for a visible, non-navigation raw entry carrying a
non-empty Original Name attribute, the enumerator emits the stored name
exactly when folding it reproduces the raw entry name; otherwise (fold
differs or fold fails) it emits the raw folded name and removes the stale
attribute.  Stated over the loop for an arbitrary case folder, attribute
store and remaining entries. -/
theorem c1_readdir_orig_name (foldO : Name → Option Name) (upperP : Name → Bool)
    (p : Name) (attr : Name → Option Name) (e v : Name) (rest : List Name)
    (hu : upperP e = false) (h1 : e ≠ dirSelf) (h2 : e ≠ dirParent)
    (ha : attr (p ++ slash :: e) = some v) (hv : v ≠ []) :
    (foldO v = some e →
      ciopfs_readdir foldO upperP p attr (e :: rest) =
        ⟨v :: (ciopfs_readdir foldO upperP p attr rest).names,
         (ciopfs_readdir foldO upperP p attr rest).removes,
         (p ++ slash :: e) :: (ciopfs_readdir foldO upperP p attr rest).lookups⟩) ∧
    (foldO v ≠ some e →
      ciopfs_readdir foldO upperP p attr (e :: rest) =
        ⟨e :: (ciopfs_readdir foldO upperP p attr rest).names,
         (p ++ slash :: e) :: (ciopfs_readdir foldO upperP p attr rest).removes,
         (p ++ slash :: e) :: (ciopfs_readdir foldO upperP p attr rest).lookups⟩) := by
  have hnav : ¬(e = dirSelf ∨ e = dirParent) := by
    rintro (hx | hx)
    · exact h1 hx
    · exact h2 hx
  constructor
  · intro hf
    simp [ciopfs_readdir, readdir_step, hu, hnav, ha, hv, hf]
  · intro hf
    rcases hfo : foldO v with _ | lw
    · simp [ciopfs_readdir, readdir_step, hu, hnav, ha, hv, hfo]
    · have hlw : lw ≠ e := by
        rintro rfl
        exact hf hfo
      simp [ciopfs_readdir, readdir_step, hu, hnav, ha, hv, hfo, hlw]

/-- Witness for c1_readdir_orig_name: directory "d" (byte 100) holding the
single raw entry "b" (byte 98) whose stored Original Name "B" (byte 66)
folds back to it, so "B" is emitted and nothing is removed. -/
theorem c1_witness :
    ciopfs_readdir asciiFoldO str_contains_upper [100]
      (fun q => if q = [100, 47, 98] then some [66] else none) [[98]] =
      ⟨[[66]], [], [[100, 47, 98]]⟩ := by
  have h := (c1_readdir_orig_name asciiFoldO str_contains_upper [100]
    (fun q => if q = [100, 47, 98] then some [66] else none) [98] [66] []
    (by decide) (by decide) (by decide) (by decide) (by decide)).1 (by decide)
  exact h.trans (by decide)

/-- Claim C2: with the ASCII folder installed, a raw backing entry the
folder would change contributes nothing to the enumeration (it is never
emitted, removes nothing and looks nothing up), while the two navigation
entries are always emitted verbatim and perform no name-registry
lookup. -/
theorem c2_readdir_invisibility (p : Name) (attr : Name → Option Name)
    (e : Name) (rest : List Name) (h : str_fold e ≠ e) :
    ciopfs_readdir asciiFoldO str_contains_upper p attr (e :: rest) =
      ciopfs_readdir asciiFoldO str_contains_upper p attr rest ∧
    ciopfs_readdir asciiFoldO str_contains_upper p attr (dirSelf :: rest) =
      ⟨dirSelf :: (ciopfs_readdir asciiFoldO str_contains_upper p attr rest).names,
       (ciopfs_readdir asciiFoldO str_contains_upper p attr rest).removes,
       (ciopfs_readdir asciiFoldO str_contains_upper p attr rest).lookups⟩ ∧
    ciopfs_readdir asciiFoldO str_contains_upper p attr (dirParent :: rest) =
      ⟨dirParent :: (ciopfs_readdir asciiFoldO str_contains_upper p attr rest).names,
       (ciopfs_readdir asciiFoldO str_contains_upper p attr rest).removes,
       (ciopfs_readdir asciiFoldO str_contains_upper p attr rest).lookups⟩ := by
  have hup : str_contains_upper e = true := (contains_upper_iff_fold_ne e).mpr h
  have hself : str_contains_upper dirSelf = false := by decide
  have hparent : str_contains_upper dirParent = false := by decide
  refine ⟨?_, ?_, ?_⟩
  · simp [ciopfs_readdir, readdir_step, hup]
  · simp [ciopfs_readdir, readdir_step, hself]
  · simp [ciopfs_readdir, readdir_step, hparent]

/-- Witness for c2_readdir_invisibility: the raw entry "A" (byte 65) is
invisible, and the navigation entries pass through verbatim. -/
theorem c2_witness :
    ciopfs_readdir asciiFoldO str_contains_upper [] (fun _ => none) [[65]] =
      ⟨[], [], []⟩ ∧
    ciopfs_readdir asciiFoldO str_contains_upper [] (fun _ => none) [dirSelf] =
      ⟨[dirSelf], [], []⟩ ∧
    ciopfs_readdir asciiFoldO str_contains_upper [] (fun _ => none) [dirParent] =
      ⟨[dirParent], [], []⟩ := by
  have h := c2_readdir_invisibility [] (fun _ => none) [65] [] (by decide)
  exact ⟨h.1.trans (by decide), h.2.1.trans (by decide), h.2.2.trans (by decide)⟩

end Ciopfs
